import Mathlib

/-!
Verification of the package-checker tool (src/main.rs) against its design
specification.  The Rust source is shallowly embedded: every pure function of
the program is translated into an executable Lean definition, machine integers
become `Nat` (the parsed version components are numerals of an `i32` parse of
a digit string, which can never be negative; overflow is swallowed by
`unwrap_or(0)` and is modelled explicitly), and fallible operations return
`Option`.  The regex patterns of the source are translated into equivalent
character-list scanners, with the leftmost-first, greedy semantics of the
regex crate spelled out case by case.  Character classes are modelled at
ASCII granularity (the digit class as ASCII digits, the whitespace class as
the six ASCII whitespace characters), which agrees with the source on all
inputs exercised here.
-/

namespace PackageChecker

/-! ## Basic character-list helpers -/

/-- Rust `str::starts_with(c)` for a single-character pattern: the first
character equals `c`. -/
def headIs (c : Char) (s : String) : Bool :=
  match s.data with
  | d :: _ => d == c
  | [] => false

/-- The six ASCII whitespace characters, the ASCII part of the regex class
`\s` and of Rust's `char::is_whitespace`. -/
def isWs (c : Char) : Bool :=
  c == ' ' || c == '\t' || c == '\n' || c == '\r' || c == '\x0b' || c == '\x0c'

/-- Rust `str::trim`: drop whitespace from both ends (modelled at ASCII
granularity). -/
def trimAscii (s : String) : String :=
  String.mk (((s.data.dropWhile isWs).reverse.dropWhile isWs).reverse)

/-- Rust `str::trim_start_matches(c)` for a single-character pattern: removes
every leading occurrence of the character `c` (repeatedly, not just once). -/
def trimLeadChar (c : Char) (s : String) : String :=
  String.mk (s.data.dropWhile (fun d => d == c))

/-- The strip applied by `satisfies_range` to the discovered version and by the
dependency walk to declared dependency versions (src/main.rs lines 66 and 441):
`v.trim_start_matches('^').trim_start_matches('~')`, i.e. first all leading
carets are removed, then all leading tildes of what remains. -/
def stripDiscovered (s : String) : String :=
  trimLeadChar '~' (trimLeadChar '^' s)

/-- Numeric value of a list of ASCII digits (decimal). -/
def digitsToNat (cs : List Char) : Nat :=
  cs.foldl (fun n c => n * 10 + (c.toNat - 48)) 0

/-- Rust `s.parse::<i32>().unwrap_or(0)` on a nonempty all-digit string: the
numeric value when it fits in an `i32`, otherwise `0` (overflow is a parse
error swallowed by `unwrap_or(0)`; a digit string can never be negative). -/
def i32OrZero (cs : List Char) : Nat :=
  if digitsToNat cs ≤ 2147483647 then digitsToNat cs else 0

/-- Match the regex `\d+\.\d+\.\d+` at the start of a character list, returning
the three digit groups and the unconsumed remainder.  Greedy `\d+` followed by
a literal dot needs no backtracking, so maximal munch is exact. -/
def matchTriplet (cs : List Char) : Option ((List Char × List Char × List Char) × List Char) :=
  let d1 := cs.takeWhile Char.isDigit
  let r1 := cs.dropWhile Char.isDigit
  if d1.isEmpty then none else
    match r1 with
    | '.' :: r2 =>
      let d2 := r2.takeWhile Char.isDigit
      let r3 := r2.dropWhile Char.isDigit
      if d2.isEmpty then none else
        match r3 with
        | '.' :: r4 =>
          let d3 := r4.takeWhile Char.isDigit
          let r5 := r4.dropWhile Char.isDigit
          if d3.isEmpty then none else some ((d1, d2, d3), r5)
        | _ => none
    | _ => none

/-- The text of a matched triplet capture group `(\d+\.\d+\.\d+)`. -/
def tripletStr (d1 d2 d3 : List Char) : String :=
  String.mk (d1 ++ '.' :: d2 ++ '.' :: d3)

/-! ## VersionComparator (src/main.rs lines 54-88) -/

/-- `parse_version`: anchors the regex `^\d+\.\d+\.\d+` on the input, splits
the matched prefix at the dots and parses each component with
`parse::<i32>().unwrap_or(0)`.  No match yields `None`. -/
def parse_version (v : String) : Option (Nat × Nat × Nat) :=
  (matchTriplet v.data).map (fun t => (i32OrZero t.1.1, i32OrZero t.1.2.1, i32OrZero t.1.2.2))

/-- `satisfies_range`: strips all leading `^` then all leading `~` from the
discovered version, parses it, and dispatches on the first character of the
range: caret ranges compare major equal and minor greater-or-equal (patch is
compared against `0`, which always holds), tilde ranges compare major and
minor equal and patch at least the range's patch, anything else compares the
stripped version literally against the raw range string. -/
def satisfies_range (version range : String) : Bool :=
  match parse_version (stripDiscovered version) with
  | some (vmaj, vmin, vpat) =>
    if headIs '^' range then
      match parse_version (trimLeadChar '^' range) with
      | some (rmaj, rmin, _) =>
          vmaj == rmaj && (decide (rmin < vmin) || (vmin == rmin && decide (0 ≤ vpat)))
      | none => false
    else if headIs '~' range then
      match parse_version (trimLeadChar '~' range) with
      | some (rmaj, rmin, rpat) =>
          vmaj == rmaj && vmin == rmin && decide (rpat ≤ vpat)
      | none => false
    else stripDiscovered version == range
  | none => false

/-- Modelled from the claim's words (for comparison with the source behavior):
strip exactly one leading `^` or `~` character, keeping the rest. -/
def stripOneLeadingMark (s : String) : String :=
  match s.data with
  | '^' :: rest => String.mk rest
  | '~' :: rest => String.mk rest
  | _ => s

/-! ## Requirement-file parsing (src/main.rs lines 324-355) -/

/-- Rust `str::split('@')` on a character list: the pieces between occurrences
of `'@'` (an empty input yields one empty piece, like Rust's `split`). -/
def splitOnChar (c : Char) : List Char → List (List Char)
  | [] => [[]]
  | d :: rest =>
    if d == c then
      [] :: splitOnChar c rest
    else
      match splitOnChar c rest with
      | [] => [[d]]
      | p :: ps => (d :: p) :: ps

/-- One line of the package file: trimmed, split at `'@'`; exactly two pieces
yield a requirement pair, anything else is skipped. -/
def parsePackageLine (l : String) : Option (String × String) :=
  match splitOnChar '@' (trimAscii l).data with
  | [n, v] => some (String.mk n, String.mk v)
  | _ => none

/-- The requirement-loading loop: valid lines are collected into a `HashSet`
(here a `Finset`); the warning for an invalid line is printed only when the
`--verbose` flag is set, so the second component counts the warnings actually
emitted. -/
def readPackages (verbose : Bool) (lines : List String) : Finset (String × String) × Nat :=
  (lines.foldr (fun l acc =>
      match parsePackageLine l with
      | some p => insert p acc
      | none => acc) ∅,
    if verbose then (lines.filter (fun l => (parsePackageLine l).isNone)).length else 0)

/-- Exit-status model of the requirement-loading stage of `main`: opening the
package file can fail (early return of `Ok(())`), the parsed set can be empty
(early return of `Ok(())`), or loading succeeds and the run continues to the
final `Ok(())`.  All three paths return `Ok`, i.e. process exit code `0`; the
output-stage CSV write is the only hard-failure path of `main` and is outside
this model. -/
inductive LoadOutcome where
  | fileError : LoadOutcome
  | noneValid : LoadOutcome
  | loaded (pkgs : Finset (String × String)) : LoadOutcome

/-- Outcome of the loading stage given the lines of the package file (`none`
when the file could not be opened). -/
def loadOutcome (file : Option (List String)) (verbose : Bool) : LoadOutcome :=
  match file with
  | none => .fileError
  | some lines =>
    let s := (readPackages verbose lines).1
    if s = ∅ then .noneValid else .loaded s

/-- Exit code of each loading-stage outcome, read off the source: the
file-open error path returns `Ok(())` (line 330), the empty-set path returns
`Ok(())` (line 354), and a successful load continues to the `Ok(())` at the
end of `main`. -/
def loadExitCode : LoadOutcome → Nat
  | .fileError => 0
  | .noneValid => 0
  | .loaded _ => 0

/-! ## JSON values (serde_json's Value)

Objects are association lists; the parser below keeps keys unique by
replacing the value of an existing key, which matches serde's map behavior,
so lookups and iteration agree with serde's `Map`.  Iteration order only ever
feeds `HashSet` results (modelled as `Finset`), so it cannot be observed. -/

inductive Json where
  | null : Json
  | bool (b : Bool) : Json
  | num (lit : String) : Json
  | str (s : String) : Json
  | arr (elems : List Json) : Json
  | obj (fields : List (String × Json)) : Json

/-- `Value::get(key)`: field lookup on an object, `None` on anything else. -/
def Json.getField : Json → String → Option Json
  | .obj fields, k => fields.lookup k
  | _, _ => none

/-- `Value::as_str()`. -/
def Json.asStr : Json → Option String
  | .str s => some s
  | _ => none

/-- `Value::as_object()` (the field list of the map). -/
def Json.asObj : Json → Option (List (String × Json))
  | .obj fields => some fields
  | _ => none

/-! ## A JSON text parser (serde_json::from_str)

Executable model of `serde_json::from_str::<Value>`: standard JSON grammar,
whole-input consumption (trailing whitespace allowed).  String escapes are
the standard ones; a `\u` escape becomes the code point directly (surrogate
pairing is not modelled, and nesting depth is bounded by the input length
rather than serde's limit of 128 — no theorem below depends on either
corner, the parser is only ever evaluated on shallow ASCII inputs or treated
opaquely through a `parseJson _ = none` hypothesis). -/

/-- JSON interword whitespace: space, tab, newline, carriage return. -/
def skipJsonWs (cs : List Char) : List Char :=
  cs.dropWhile (fun c => c == ' ' || c == '\t' || c == '\n' || c == '\r')

/-- Value of one hexadecimal digit. -/
def hexDigitVal (c : Char) : Option Nat :=
  if '0' ≤ c ∧ c ≤ '9' then some (c.toNat - 48)
  else if 'a' ≤ c ∧ c ≤ 'f' then some (c.toNat - 87)
  else if 'A' ≤ c ∧ c ≤ 'F' then some (c.toNat - 55)
  else none

/-- Body of a JSON string literal (after the opening quote): the decoded
characters and the remainder after the closing quote. -/
def parseStrChars : List Char → Option (List Char × List Char)
  | [] => none
  | '"' :: rest => some ([], rest)
  | '\\' :: rest =>
    match rest with
    | [] => none
    | e :: rest2 =>
      if e == '"' then (parseStrChars rest2).map (fun pr => ('"' :: pr.1, pr.2))
      else if e == '\\' then (parseStrChars rest2).map (fun pr => ('\\' :: pr.1, pr.2))
      else if e == '/' then (parseStrChars rest2).map (fun pr => ('/' :: pr.1, pr.2))
      else if e == 'b' then (parseStrChars rest2).map (fun pr => ('\x08' :: pr.1, pr.2))
      else if e == 'f' then (parseStrChars rest2).map (fun pr => ('\x0c' :: pr.1, pr.2))
      else if e == 'n' then (parseStrChars rest2).map (fun pr => ('\n' :: pr.1, pr.2))
      else if e == 'r' then (parseStrChars rest2).map (fun pr => ('\r' :: pr.1, pr.2))
      else if e == 't' then (parseStrChars rest2).map (fun pr => ('\t' :: pr.1, pr.2))
      else if e == 'u' then
        match rest2 with
        | h1 :: h2 :: h3 :: h4 :: rest3 =>
          match hexDigitVal h1, hexDigitVal h2, hexDigitVal h3, hexDigitVal h4 with
          | some a, some b, some c, some d =>
            (parseStrChars rest3).map
              (fun pr => (Char.ofNat (((a * 16 + b) * 16 + c) * 16 + d) :: pr.1, pr.2))
          | _, _, _, _ => none
        | _ => none
      else none
  | c :: rest =>
    if c.toNat < 32 then none
    else (parseStrChars rest).map (fun pr => (c :: pr.1, pr.2))

/-- A JSON number literal: `-?(0|[1-9][0-9]*)(\.[0-9]+)?([eE][+-]?[0-9]+)?`;
returns the lexeme and the remainder. -/
def parseNumLit (cs : List Char) : Option (List Char × List Char) :=
  let (negPart, cs1) : List Char × List Char :=
    match cs with
    | '-' :: r => (['-'], r)
    | _ => ([], cs)
  let intRes : Option (List Char × List Char) :=
    match cs1 with
    | '0' :: r => some (['0'], r)
    | c :: r =>
      if c.isDigit && !(c == '0') then
        some (c :: r.takeWhile Char.isDigit, r.dropWhile Char.isDigit)
      else none
    | [] => none
  match intRes with
  | none => none
  | some (intPart, rest1) =>
    let fracRes : Option (List Char × List Char) :=
      match rest1 with
      | '.' :: r2 =>
        let ds := r2.takeWhile Char.isDigit
        if ds.isEmpty then none else some ('.' :: ds, r2.dropWhile Char.isDigit)
      | _ => some ([], rest1)
    match fracRes with
    | none => none
    | some (fracPart, rest2) =>
      let expRes : Option (List Char × List Char) :=
        match rest2 with
        | e :: r3 =>
          if e == 'e' || e == 'E' then
            let (signPart, r4) : List Char × List Char :=
              match r3 with
              | '+' :: r5 => (['+'], r5)
              | '-' :: r5 => (['-'], r5)
              | _ => ([], r3)
            let ds := r4.takeWhile Char.isDigit
            if ds.isEmpty then none
            else some (e :: signPart ++ ds, r4.dropWhile Char.isDigit)
          else some ([], rest2)
        | [] => some ([], rest2)
      match expRes with
      | none => none
      | some (expPart, rest3) =>
        some (negPart ++ intPart ++ fracPart ++ expPart, rest3)

/-- Insert with replacement into an object's field list (serde map insert:
an existing key keeps its position, its value is replaced). -/
def mapInsert (k : String) (v : Json) : List (String × Json) → List (String × Json)
  | [] => [(k, v)]
  | (k0, v0) :: rest => if k0 == k then (k0, v) :: rest else (k0, v0) :: mapInsert k v rest

mutual

/-- One JSON value starting at the input (leading whitespace allowed); the
fuel strictly exceeds the remaining input length, so it never runs out. -/
def parseJsonValue : Nat → List Char → Option (Json × List Char)
  | 0, _ => none
  | fuel + 1, cs =>
    match skipJsonWs cs with
    | 'n' :: rest =>
      (match rest with
       | 'u' :: 'l' :: 'l' :: r => some (.null, r)
       | _ => none)
    | 't' :: rest =>
      (match rest with
       | 'r' :: 'u' :: 'e' :: r => some (.bool true, r)
       | _ => none)
    | 'f' :: rest =>
      (match rest with
       | 'a' :: 'l' :: 's' :: 'e' :: r => some (.bool false, r)
       | _ => none)
    | '"' :: rest => (parseStrChars rest).map (fun pr => (.str (String.mk pr.1), pr.2))
    | '{' :: rest =>
      (match skipJsonWs rest with
       | '}' :: r => some (.obj [], r)
       | _ => parseObjRest fuel rest [])
    | '[' :: rest =>
      (match skipJsonWs rest with
       | ']' :: r => some (.arr [], r)
       | _ => parseArrRest fuel rest [])
    | c :: rest =>
      if c == '-' || c.isDigit then
        (parseNumLit (c :: rest)).map (fun pr => (.num (String.mk pr.1), pr.2))
      else none
    | [] => none

/-- Fields of an object after `{` (at least one field present). -/
def parseObjRest : Nat → List Char → List (String × Json) → Option (Json × List Char)
  | 0, _, _ => none
  | fuel + 1, cs, acc =>
    match skipJsonWs cs with
    | '"' :: rest =>
      (match parseStrChars rest with
       | some (key, rest2) =>
         (match skipJsonWs rest2 with
          | ':' :: rest3 =>
            (match parseJsonValue fuel rest3 with
             | some (v, rest4) =>
               (match skipJsonWs rest4 with
                | ',' :: rest5 => parseObjRest fuel rest5 (mapInsert (String.mk key) v acc)
                | '}' :: rest5 => some (.obj (mapInsert (String.mk key) v acc), rest5)
                | _ => none)
             | none => none)
          | _ => none)
       | none => none)
    | _ => none

/-- Elements of an array after `[` (at least one element present). -/
def parseArrRest : Nat → List Char → List Json → Option (Json × List Char)
  | 0, _, _ => none
  | fuel + 1, cs, acc =>
    match parseJsonValue fuel cs with
    | some (v, rest) =>
      (match skipJsonWs rest with
       | ',' :: rest2 => parseArrRest fuel rest2 (acc ++ [v])
       | ']' :: rest2 => some (.arr (acc ++ [v]), rest2)
       | _ => none)
    | none => none

end

/-- `serde_json::from_str::<Value>`: parse one value and require that only
whitespace remains. -/
def parseJson (content : String) : Option Json :=
  match parseJsonValue (content.data.length + 2) content.data with
  | some (v, rem) => if (skipJsonWs rem).isEmpty then some v else none
  | none => none

/-! ## FormatExtractors (src/main.rs lines 149-291)

HashSet results become `Finset String`.  The regex scans are spelled out as
character-list scanners with the crate's leftmost-first, non-overlapping
`captures_iter` behavior: on a successful match the scan resumes after the
match, otherwise at the next position. -/

/-- Substring containment, Rust `str::contains(&str)`. -/
def containsSub (pat : List Char) : List Char → Bool
  | [] => pat.isEmpty
  | c :: rest => pat.isPrefixOf (c :: rest) || containsSub pat rest

/-- First capture of the yarn version regex: the raw pattern `version
"(\d+\.\d+\.\d+)` — the literal `version "` followed by a triplet (the raw
string in the source ends before a closing quote, so none is required). -/
def versionCaptureIn : List Char → Option String
  | [] => none
  | c :: rest =>
    if ['v', 'e', 'r', 's', 'i', 'o', 'n', ' ', '"'].isPrefixOf (c :: rest) then
      match matchTriplet ((c :: rest).drop 9) with
      | some ((d1, d2, d3), _) => some (tripletStr d1 d2 d3)
      | none => versionCaptureIn rest
    else versionCaptureIn rest

/-- Index of the last `'\n'` in a character list, if any. -/
def lastNlIdx (w : List Char) : Option Nat :=
  match w.reverse.findIdx? (fun c => c == '\n') with
  | some k => some (w.length - 1 - k)
  | none => none

/-- Splitting at the record-separator regex `\n\s*\n` (leftmost-first,
greedy): at a newline, the greedy `\s*` takes the maximal whitespace run `w`
that follows and backtracks so that the final mandatory `\n` lands on the
last newline inside `w`; if `w` holds no newline there is no match at this
position.  The fuel strictly exceeds the remaining input length (every step
consumes at least one character), so it never runs out. -/
def splitRecordsGo : Nat → List Char → List Char → List (List Char)
  | 0, cur, rest => [cur.reverse ++ rest]
  | _ + 1, cur, [] => [cur.reverse]
  | fuel + 1, cur, c :: rest =>
    if c == '\n' then
      let w := rest.takeWhile isWs
      match lastNlIdx w with
      | some p => cur.reverse :: splitRecordsGo fuel [] (w.drop (p + 1) ++ rest.drop w.length)
      | none => splitRecordsGo fuel (c :: cur) rest
    else splitRecordsGo fuel (c :: cur) rest

/-- `Regex::split` of the content at blank-line separators. -/
def splitRecords (cs : List Char) : List (List Char) :=
  splitRecordsGo (cs.length + 1) [] cs

/-- `get_yarn_versions`: split the content into blank-line-delimited records;
a record mentioning the substring `name@` contributes its first
`version "x.y.z` capture. -/
def get_yarn_versions (name content : String) : Finset String :=
  (splitRecords content.data).foldr
    (fun record acc =>
      if containsSub (name.data ++ ['@']) record then
        match versionCaptureIn record with
        | some v => insert v acc
        | none => acc
      else acc)
    ∅

/-- `captures_iter` for a pattern that is a literal followed by a triplet
capture group: collect every non-overlapping capture, left to right. -/
def scanCapturesAfterLit : Nat → List Char → List Char → List String
  | 0, _, _ => []
  | _ + 1, _, [] => []
  | fuel + 1, lit, c :: rest =>
    if lit.isPrefixOf (c :: rest) then
      match matchTriplet ((c :: rest).drop lit.length) with
      | some ((d1, d2, d3), rem) => tripletStr d1 d2 d3 :: scanCapturesAfterLit fuel lit rem
      | none => scanCapturesAfterLit fuel lit rest
    else scanCapturesAfterLit fuel lit rest

/-- `get_pnpm_versions`: the path pattern `/<name>/(\d+\.\d+\.\d+)` and the
quoted pattern `"<name>@(\d+\.\d+\.\d+)` (the raw pattern again has no
closing quote), both over the whole content, unioned.  `regex::escape`
makes the name literal, which the scanner's literal treatment models. -/
def get_pnpm_versions (name content : String) : Finset String :=
  (scanCapturesAfterLit (content.data.length + 1)
      ('/' :: name.data ++ ['/']) content.data).toFinset ∪
  (scanCapturesAfterLit (content.data.length + 1)
      ('"' :: name.data ++ ['@']) content.data).toFinset

/-- One attempt of the DEPENDENCIES.json raw-text regex
`"name"\s*:\s*"<name>@(\d+\.\d+\.\d+)` at the current position: the literal
`"name"`, optional whitespace, a colon, optional whitespace, a quote, the
escaped package name, `@`, and the triplet capture. -/
def matchDepsAt (name : String) (cs : List Char) : Option (String × List Char) :=
  if ['"', 'n', 'a', 'm', 'e', '"'].isPrefixOf cs then
    match (cs.drop 6).dropWhile isWs with
    | ':' :: r3 =>
      (match r3.dropWhile isWs with
       | '"' :: r5 =>
         if (name.data ++ ['@']).isPrefixOf r5 then
           match matchTriplet (r5.drop (name.data.length + 1)) with
           | some ((d1, d2, d3), rem) => some (tripletStr d1 d2 d3, rem)
           | none => none
         else none
       | _ => none)
    | _ => none
  else none

/-- `captures_iter` for the DEPENDENCIES.json raw-text regex. -/
def depsRegexScan : Nat → String → List Char → List String
  | 0, _, _ => []
  | _ + 1, _, [] => []
  | fuel + 1, name, c :: rest =>
    match matchDepsAt name (c :: rest) with
    | some (v, rem) => v :: depsRegexScan fuel name rem
    | none => depsRegexScan fuel name rest

/-- Full match of `^\d+\.\d+\.\d+$` (anchored at both ends). -/
def fullTripletStr (s : List Char) : Bool :=
  match matchTriplet s with
  | some (_, rem) => rem.isEmpty
  | none => false

/-- The `name` field check of `walk_deps`: a string field `name` whose value
starts with `<name>@`, splits at `'@'` into exactly two parts, and whose
second part is a full triplet contributes that part. -/
def depsNameHit (name : String) (fields : List (String × Json)) : Finset String :=
  match (fields.lookup "name").bind Json.asStr with
  | some nm =>
    if (name.data ++ ['@']).isPrefixOf nm.data then
      match splitOnChar '@' nm.data with
      | [_, p2] => if fullTripletStr p2 then {String.mk p2} else ∅
      | _ => ∅
    else ∅
  | none => ∅

mutual

/-- `walk_deps`: recursive descent over the whole JSON value collecting the
composite-key `name` hits. -/
def walk_deps (name : String) : Json → Finset String
  | .obj fields => depsNameHit name fields ∪ walkDepsFields name fields
  | .arr elems => walkDepsArr name elems
  | _ => ∅

/-- Descent of `walk_deps` into every field value of an object. -/
def walkDepsFields (name : String) : List (String × Json) → Finset String
  | [] => ∅
  | (_, v) :: rest => walk_deps name v ∪ walkDepsFields name rest

/-- Descent of `walk_deps` into every element of an array. -/
def walkDepsArr (name : String) : List Json → Finset String
  | [] => ∅
  | v :: rest => walk_deps name v ∪ walkDepsArr name rest

end

/-- The raw-text regex component of `get_dependencies_versions`. -/
def depsRegexVersions (name content : String) : Finset String :=
  (depsRegexScan (content.data.length + 1) name content.data).toFinset

/-- `get_dependencies_versions`: the raw-text regex scan runs on the content
unconditionally; the JSON walk contributes only when the content parses. -/
def get_dependencies_versions (name content : String) : Finset String :=
  depsRegexVersions name content ∪
    (match parseJson content with
     | some data => walk_deps name data
     | none => ∅)

/-- `v.get("version").and_then(as_str)` as a zero-or-one-element set. -/
def versionField (v : Json) : Finset String :=
  match (v.getField "version").bind Json.asStr with
  | some s => {s}
  | none => ∅

mutual

/-- `walk_plock` lifted to a JSON value: applied to an object it scans the
fields for `dependencies` and loops over its entries; on anything else it
contributes nothing (in the source the caller guards with `as_object`, which
this non-object arm models).  serde maps have unique keys, so scanning the
field list for the key agrees with `Map::get`. -/
def walkPlockVal (name : String) : Json → Finset String
  | .obj fields => walkPlockFields name fields
  | _ => ∅

/-- Field scan of `walk_plock` for the `dependencies` key. -/
def walkPlockFields (name : String) : List (String × Json) → Finset String
  | [] => ∅
  | (k, v) :: rest =>
    (if k == "dependencies" then plockDepsVal name v else ∅) ∪ walkPlockFields name rest

/-- The `dependencies` value of `walk_plock`: loop when it is an object. -/
def plockDepsVal (name : String) : Json → Finset String
  | .obj deps => plockLoop name deps
  | _ => ∅

/-- The per-entry loop of `walk_plock`: a key equal to the package name
contributes the entry's `version` field, and every object entry is walked
recursively. -/
def plockLoop (name : String) : List (String × Json) → Finset String
  | [] => ∅
  | (k, v) :: rest =>
    ((if k == name then versionField v else ∅) ∪ walkPlockVal name v) ∪ plockLoop name rest

end

/-- `get_package_lock_versions`: the direct `dependencies[name].version`
lookup, the `packages["node_modules/<name>"].version` lookup, and the third
loop over the top-level `dependencies` map (per-key check plus recursive
`walk_plock` into each object entry, which is exactly `plockLoop`), all
unioned. -/
def get_package_lock_versions (name : String) (plock : Json) : Finset String :=
  (match (plock.getField "dependencies").bind Json.asObj with
   | some deps =>
     match (deps.lookup name).bind (fun v => (v.getField "version").bind Json.asStr) with
     | some s => {s}
     | none => ∅
   | none => ∅) ∪
  (match (plock.getField "packages").bind Json.asObj with
   | some packages =>
     match (packages.lookup (String.mk ('n' :: 'o' :: 'd' :: 'e' :: '_'
         :: 'm' :: 'o' :: 'd' :: 'u' :: 'l' :: 'e' :: 's' :: '/' :: name.data))).bind
         (fun v => (v.getField "version").bind Json.asStr) with
     | some s => {s}
     | none => ∅
   | none => ∅) ∪
  (match (plock.getField "dependencies").bind Json.asObj with
   | some deps => plockLoop name deps
   | none => ∅)

mutual

/-- `walk_npm`: on an object, scan the fields for the `dependencies` object
and run the npm per-entry loop on it. -/
def walk_npm (name : String) : Json → Finset String
  | .obj fields => walkNpmFields name fields
  | _ => ∅

/-- Scan of an object's fields for its `dependencies` object. -/
def walkNpmFields (name : String) : List (String × Json) → Finset String
  | [] => ∅
  | (k, v) :: rest =>
    (if k == "dependencies" then npmDepsVal name v else ∅) ∪ walkNpmFields name rest

/-- The `dependencies` value of `walk_npm`: loop when it is an object. -/
def npmDepsVal (name : String) : Json → Finset String
  | .obj deps => npmLoop name deps
  | _ => ∅

/-- The per-entry loop of `walk_npm`: a key equal to the package name
contributes the entry's `version` field, and every entry value is walked
recursively (directly on the JSON value, unlike `walk_plock`). -/
def npmLoop (name : String) : List (String × Json) → Finset String
  | [] => ∅
  | (k, v) :: rest =>
    ((if k == name then versionField v else ∅) ∪ walk_npm name v) ∪ npmLoop name rest

end

/-- `get_pkg_range`: the declared range of `name` in the manifest, looked up
first in `dependencies` then in `devDependencies`; absent entries (or a
missing/unparsed manifest) yield the empty string. -/
def sectionRange (data : Json) (sec name : String) : Option String :=
  ((data.getField sec).bind Json.asObj).bind
    (fun deps => (deps.lookup name).bind Json.asStr)

/-- `get_pkg_range` over the optional manifest. -/
def get_pkg_range (name : String) (pkg_json : Option Json) : String :=
  match pkg_json with
  | some data =>
    (match sectionRange data "dependencies" name with
     | some r => r
     | none => (sectionRange data "devDependencies" name).getD "")
  | none => ""

/-! ## Per-directory processing (src/main.rs lines 362-565)

The `Preload` bundle holds the per-directory sources exactly as `main` loads
them before the parallel loop (raw text for yarn/pnpm/DEPENDENCIES.json,
parsed JSON for package-lock and the manifest; `none` for files that are
absent or, for the JSON ones, unparsable).  The npm query is an external
subprocess; its successfully parsed JSON output per package name is a
parameter (`none` models a failed command or unparsable output, which the
source turns into an empty version set). -/

structure Preload where
  yarn : Option String
  plock : Option Json
  pnpm : Option String
  deps : Option String
  pkg_json : Option Json

/-- One row of the report: the tuple pushed into `rows_mutex`
(`package, version, location, match_package, match_version, dependency,
depended_by`). -/
structure Row where
  pkg : String
  ver : String
  loc : String
  mp : Bool
  mv : Bool
  dep : String
  depBy : String
deriving DecidableEq

/-- The manifest `name` field as `main` reads it:
`data.get("name").and_then(as_str).unwrap_or("")`. -/
def manifestName (data : Json) : String :=
  ((data.getField "name").bind Json.asStr).getD ""

/-- The manifest `version` field, same shape. -/
def manifestVersion (data : Json) : String :=
  ((data.getField "version").bind Json.asStr).getD ""

/-- A dependency map of the manifest (`dependencies` or `devDependencies`)
as a field list, empty when absent or not an object. -/
def depsSection (data : Json) (key : String) : List (String × Json) :=
  ((data.getField key).bind Json.asObj).getD []

/-- One dependency entry of the manifest walk: the declared version string
(empty for non-strings) is stripped with the same caret/tilde strip as
`satisfies_range`, then matched against the requirement set.  Returns the
row and the optional found-list entry. -/
def depRow (d : String) (packages : List (String × String)) (rootName rootVersion kind : String)
    (depName : String) (depVerJson : Json) : Row × Option String :=
  let clean := stripDiscovered ((Json.asStr depVerJson).getD "")
  let mp := packages.any (fun p => p.1 == depName)
  let mv := packages.any (fun p => p.1 == depName && satisfies_range clean p.2)
  (⟨depName, clean, d, mp, mv, kind, rootName ++ "@" ++ rootVersion⟩,
    if mp && mv then some (d ++ ":" ++ depName ++ "@" ++ clean) else none)

/-- The manifest-derived part of a directory's report (lines 413-495): when
the manifest has a non-empty name and version, the root-package row followed
by the `dependencies` rows (kind `"yes"`) and the `devDependencies` rows
(kind `"dev"`), together with the found-list entries pushed along the way;
otherwise nothing. -/
def manifestPart (d : String) (packages : List (String × String)) (data : Json) :
    List Row × List String :=
  let name := manifestName data
  let version := manifestVersion data
  if name = "" ∨ version = "" then ([], [])
  else
    let mp := packages.any (fun p => p.1 == name)
    let mv := packages.contains (name, version)
    let dRows := (depsSection data "dependencies").map
      (fun kv => depRow d packages name version "yes" kv.1 kv.2)
    let vRows := (depsSection data "devDependencies").map
      (fun kv => depRow d packages name version "dev" kv.1 kv.2)
    (⟨name, version, d, mp, mv, "", ""⟩ :: (dRows.map Prod.fst ++ vRows.map Prod.fst),
      (if mp && mv then [d ++ ":" ++ name ++ "@" ++ version] else [])
        ++ (dRows.filterMap Prod.snd ++ vRows.filterMap Prod.snd))

/-- The npm-discovered version set for one requirement name: empty when
`--no-npm` is set or the subprocess produced no parsable JSON, otherwise the
`walk_npm` collection over the parsed output. -/
def npmSetFor (no_npm : Bool) (npmOut : String → Option Json) (name : String) : Finset String :=
  if no_npm then ∅
  else
    match npmOut name with
    | some data => walk_npm name data
    | none => ∅

/-- An entry of `versions_by_file`: inserted only when non-empty. -/
def optEntry (key : String) (s : Finset String) : List (String × Finset String) :=
  if s = ∅ then [] else [(key, s)]

/-- The `versions_by_file` map built for one requirement (lines 500-533):
one entry per source file whose extractor found versions. -/
def versions_by_file (name : String) (pl : Preload) (nv : Finset String) :
    List (String × Finset String) :=
  optEntry "yarn.lock"
      (match pl.yarn with | some c => get_yarn_versions name c | none => ∅)
    ++ optEntry "package-lock.json"
      (match pl.plock with | some j => get_package_lock_versions name j | none => ∅)
    ++ optEntry "pnpm-lock.yaml"
      (match pl.pnpm with | some c => get_pnpm_versions name c | none => ∅)
    ++ optEntry "DEPENDENCIES.json"
      (match pl.deps with | some c => get_dependencies_versions name c | none => ∅)
    ++ optEntry "npm_installed" nv

/-- `all_versions` for one requirement: the union of the `versions_by_file`
values, extended with the npm set (lines 535-539). -/
def all_versions_of (name : String) (pl : Preload) (nv : Finset String) : Finset String :=
  (versions_by_file name pl nv).foldr (fun kv acc => kv.2 ∪ acc) ∅ ∪ nv

/-- The per-requirement resolution step (lines 498-564): compute the declared
range and the discovered-version union, set `match_package`/`match_version`,
drop the row when both are false, and emit the found-list entry when both
are true. -/
def requirementRow (d : String) (pl : Preload) (no_npm : Bool)
    (npmOut : String → Option Json) (name version : String) : Option (Row × Option String) :=
  let rng := get_pkg_range name pl.pkg_json
  let nv := npmSetFor no_npm npmOut name
  let all := all_versions_of name pl nv
  let mp := !(rng == "") || decide all.Nonempty
  let mv := decide (∃ v ∈ all, satisfies_range v version = true)
  if !mp && !mv then none
  else some (⟨name, version, d, mp, mv, "", ""⟩,
    if mp && mv then some (d ++ ":" ++ name ++ "@" ++ version) else none)

/-- The resolution rows and found entries of one directory, in requirement
order. -/
def resolutionPart (d : String) (packages : List (String × String)) (pl : Preload)
    (no_npm : Bool) (npmOut : String → Option Json) : List Row × List String :=
  (packages.filterMap (fun p => (requirementRow d pl no_npm npmOut p.1 p.2).map Prod.fst),
    packages.filterMap (fun p => (requirementRow d pl no_npm npmOut p.1 p.2).bind Prod.snd))

/-- The manifest-derived part over the optional manifest: nothing when the
manifest is absent or did not parse. -/
def manifestOf (d : String) (packages : List (String × String)) (pj : Option Json) :
    List Row × List String :=
  match pj with
  | some data => manifestPart d packages data
  | none => ([], [])

/-- Everything one directory's task appends: the manifest-derived rows (when
the manifest parsed) followed by the per-requirement resolution rows, and
likewise for the found-list entries. -/
def processDir (d : String) (packages : List (String × String)) (pl : Preload)
    (no_npm : Bool) (npmOut : String → Option Json) : List Row × List String :=
  let m := manifestOf d packages pl.pkg_json
  let r := resolutionPart d packages pl no_npm npmOut
  (m.1 ++ r.1, m.2 ++ r.2)

/-! ## Aggregation and sorting (src/main.rs lines 405-598)

The two shared vectors are filled by the per-directory tasks under a mutex:
each task pushes its own rows in program order, so the final vector is an
interleaving of the per-directory lists, and the subsequence of rows coming
from directory `d` is exactly that directory's list (every row carries its
directory in `loc` — see `processDir_loc` — and distinct tasks have distinct
directories).  `RowsOutcome` captures exactly these interleavings.  The final
`rows.sort_by_key(|r| (r.0, r.1, r.2))` is Rust's stable sort by the
`(package, version, location)` key; it is modelled by insertion sort, which
is stable, over the lexicographic key order.  Rust compares `String`s
lexicographically by UTF-8 bytes, which coincides with the
codepoint-lexicographic `String` order used here. -/

/-- The sort key of a row: `(package, version, location)`. -/
def rowKey (r : Row) : String × String × String := (r.pkg, r.ver, r.loc)

/-- The sort key with its lexicographic order. -/
def rowKeyL (r : Row) : String ×ₗ (String ×ₗ String) := toLex (r.pkg, toLex (r.ver, r.loc))

/-- Row comparison by key, the order used by `sort_by_key`. -/
def rowLE (a b : Row) : Prop := rowKeyL a ≤ rowKeyL b

instance : DecidableRel rowLE := fun a b => inferInstanceAs (Decidable (rowKeyL a ≤ rowKeyL b))

instance : IsTotal Row rowLE := ⟨fun a b => le_total (rowKeyL a) (rowKeyL b)⟩

instance : IsTrans Row rowLE := ⟨fun _ _ _ h1 h2 => le_trans h1 h2⟩

/-- The final stable sort of the report rows. -/
def sortRows (rows : List Row) : List Row := List.insertionSort rowLE rows

/-- The final sort of the found list (`found.sort()`). -/
def sortFound (found : List String) : List String :=
  List.insertionSort (fun a b : String => a ≤ b) found

/-- The possible contents of the shared rows vector after every task has
finished: an interleaving of the per-directory row lists, characterized by
its per-directory subsequences (each task appends only rows tagged with its
own directory, in program order). -/
def RowsOutcome (dirs : List String) (dirRows : String → List Row) (xs : List Row) : Prop :=
  (∀ r ∈ xs, r.loc ∈ dirs) ∧ ∀ d ∈ dirs, xs.filter (fun r => r.loc == d) = dirRows d

/-- A preload with only a package-lock recording left-pad 1.3.2, used by
concrete witness instances. -/
def lockOnlyPreload : Preload :=
  { yarn := none,
    plock := some (Json.obj [("dependencies", Json.obj
      [("left-pad", Json.obj [("version", Json.str "1.3.2")])])]),
    pnpm := none, deps := none, pkg_json := none }

/-- A preload whose manifest names the package `a` at version `1.0.0`, used
by concrete witness instances. -/
def namedPreload : Preload :=
  { yarn := none, plock := none, pnpm := none, deps := none,
    pkg_json := some (Json.obj [("name", Json.str "a"), ("version", Json.str "1.0.0")]) }

/-- A preload whose manifest has a non-empty dependency map but no `name`
field, used by concrete witness instances. -/
def namelessPreload : Preload :=
  { yarn := none, plock := none, pnpm := none, deps := none,
    pkg_json := some (Json.obj
      [("dependencies", Json.obj [("left-pad", Json.str "^1.0.0")])]) }

/-! ## Helper lemmas -/

theorem dropWhile_replicate_append (c : Char) (m : Nat) (l : List Char) :
    List.dropWhile (fun d => d == c) (List.replicate m c ++ l)
      = List.dropWhile (fun d => d == c) l := by
  induction m with
  | zero => simp
  | succ m ih => simp [List.replicate_succ, ih]

theorem dropWhile_of_head_ne (c : Char) (l : List Char) (h : l.head? ≠ some c) :
    List.dropWhile (fun d => d == c) l = l := by
  cases l with
  | nil => rfl
  | cons d rest =>
    have hd : d ≠ c := by
      intro he
      exact h (by simp [he])
    simp [List.dropWhile_cons, hd]

theorem splitOnChar_ne_nil (c : Char) (cs : List Char) : splitOnChar c cs ≠ [] := by
  induction cs with
  | nil => simp [splitOnChar]
  | cons d rest ih =>
    by_cases h : d == c
    · simp [splitOnChar, h]
    · simp only [splitOnChar, h]
      cases hs : splitOnChar c rest with
      | nil => simp
      | cons p ps => simp

theorem splitOnChar_length (c : Char) (cs : List Char) :
    (splitOnChar c cs).length = cs.count c + 1 := by
  induction cs with
  | nil => simp [splitOnChar]
  | cons d rest ih =>
    by_cases h : d = c
    · subst h
      simp [splitOnChar, List.count_cons, ih]
    · have hb : (d == c) = false := by simp [h]
      simp only [splitOnChar, hb, Bool.false_eq_true, if_false]
      cases hs : splitOnChar c rest with
      | nil => exact absurd hs (splitOnChar_ne_nil c rest)
      | cons p ps =>
        have := ih
        rw [hs] at this
        simp only [List.length_cons] at this ⊢
        simp [List.count_cons, h, ← this]

theorem mem_readPackages (verbose : Bool) (lines : List String) (p : String × String) :
    p ∈ (readPackages verbose lines).1 ↔ ∃ l ∈ lines, parsePackageLine l = some p := by
  induction lines with
  | nil => simp [readPackages]
  | cons l ls ih =>
    simp only [readPackages] at ih ⊢
    cases h : parsePackageLine l with
    | none => simp [h, ih]
    | some a =>
      simp only [List.foldr_cons, h, Finset.mem_insert, ih, List.mem_cons]
      constructor
      · rintro (rfl | ⟨l', hl', he⟩)
        · exact ⟨l, Or.inl rfl, h⟩
        · exact ⟨l', Or.inr hl', he⟩
      · rintro ⟨l', (rfl | hl'), he⟩
        · rw [h] at he
          exact Or.inl (Option.some_injective _ he).symm
        · exact Or.inr ⟨l', hl', he⟩

theorem parsePackageLine_isSome_iff (l : String) :
    (parsePackageLine l).isSome = true ↔ (trimAscii l).data.count '@' = 1 := by
  have hlen := splitOnChar_length '@' (trimAscii l).data
  unfold parsePackageLine
  cases hs : splitOnChar '@' (trimAscii l).data with
  | nil => exact absurd hs (splitOnChar_ne_nil _ _)
  | cons p ps =>
    rw [hs] at hlen
    cases ps with
    | nil =>
      simp only [List.length_cons, List.length_nil] at hlen
      simp [Option.isSome]
      omega
    | cons q qs =>
      cases qs with
      | nil =>
        simp only [List.length_cons, List.length_nil] at hlen
        simp [Option.isSome]
        omega
      | cons r rs =>
        simp only [List.length_cons] at hlen
        simp [Option.isSome]
        omega

theorem foldr_optEntry (key : String) (s : Finset String) (rest : List (String × Finset String)) :
    List.foldr (fun kv acc => kv.2 ∪ acc) ∅ (optEntry key s ++ rest)
      = s ∪ List.foldr (fun kv acc => kv.2 ∪ acc) ∅ rest := by
  unfold optEntry
  by_cases h : s = ∅
  · simp [h]
  · simp [h]

/-- `all_versions` is the plain union of the five extractor results: the
emptiness guards on the `versions_by_file` entries do not change the union,
and extending with the npm set twice collapses. -/
theorem all_versions_eq (name : String) (pl : Preload) (nv : Finset String) :
    all_versions_of name pl nv
      = (match pl.yarn with | some c => get_yarn_versions name c | none => ∅)
        ∪ (match pl.plock with | some j => get_package_lock_versions name j | none => ∅)
        ∪ (match pl.pnpm with | some c => get_pnpm_versions name c | none => ∅)
        ∪ (match pl.deps with | some c => get_dependencies_versions name c | none => ∅)
        ∪ nv := by
  unfold all_versions_of versions_by_file
  simp only [List.append_assoc]
  rw [foldr_optEntry, foldr_optEntry, foldr_optEntry, foldr_optEntry]
  unfold optEntry
  by_cases h : nv = ∅
  · simp [h]
  · simp [h]

theorem contains_imp_any (packages : List (String × String)) (a b : String)
    (h : packages.contains (a, b) = true) :
    packages.any (fun p => p.1 == a) = true := by
  rw [List.any_eq_true]
  have hmem : (a, b) ∈ packages := List.mem_of_elem_eq_true h
  exact ⟨(a, b), hmem, by simp⟩

/-- In a produced resolution row, a satisfied version forces a non-empty
discovered set, hence `match_package`. -/
theorem requirementRow_mv_imp_mp (d name version : String) (pl : Preload) (no_npm : Bool)
    (npmOut : String → Option Json) (row : Row) (os : Option String)
    (h : requirementRow d pl no_npm npmOut name version = some (row, os)) :
    row.mv = true → row.mp = true := by
  simp only [requirementRow] at h
  split at h
  · exact absurd h (by simp)
  · have h2 := Option.some.inj h
    have hrow : row = ⟨name, version, d,
        !(get_pkg_range name pl.pkg_json == "")
          || decide (all_versions_of name pl (npmSetFor no_npm npmOut name)).Nonempty,
        decide (∃ v ∈ all_versions_of name pl (npmSetFor no_npm npmOut name),
          satisfies_range v version = true), "", ""⟩ :=
      (congrArg Prod.fst h2).symm
    rw [hrow]
    simp only [decide_eq_true_eq, Bool.or_eq_true]
    intro hex
    obtain ⟨v, hv, _⟩ := hex
    exact Or.inr ⟨v, hv⟩

/-! ## Claim C1: caret ranges -/

/-- C1: for every version string whose leading triplet parses after the
caret/tilde strip and every caret range, `satisfies_range` returns true
exactly when the majors agree and the version's minor is greater than the
range's minor, or equal to it (the patch components are unconstrained: the
version's patch is compared against `0` and the range's patch is ignored
beyond parse validity); in particular `satisfies("1.4.0", "^1.2.0")` is true
and `satisfies("2.0.0", "^1.2.0")` is false. -/
theorem caret_range_spec :
    (∀ (v r : String) (va vb vc a b c : Nat),
        parse_version (stripDiscovered v) = some (va, vb, vc) →
        headIs '^' r = true →
        parse_version (trimLeadChar '^' r) = some (a, b, c) →
        (satisfies_range v r = true ↔ (va = a ∧ (b < vb ∨ vb = b))))
    ∧ satisfies_range "1.4.0" "^1.2.0" = true
    ∧ satisfies_range "2.0.0" "^1.2.0" = false := by
  refine ⟨?_, by decide, by decide⟩
  intro v r va vb vc a b c hv hs hr
  simp only [satisfies_range, hv, hs, hr, if_true]
  simp [Bool.and_eq_true, Bool.or_eq_true, decide_eq_true_eq]

/-- Witness for C1 at `v = "1.4.0"`, `r = "^1.2.0"`. -/
theorem caret_range_spec_witness :
    satisfies_range "1.4.0" "^1.2.0" = true ↔ (1 = 1 ∧ (2 < 4 ∨ 4 = 2)) :=
  caret_range_spec.1 "1.4.0" "^1.2.0" 1 4 0 1 2 0 (by decide) (by decide) (by decide)

/-! ## Claim C2: tilde ranges -/

/-- C2: for every version string whose leading triplet parses after the
caret/tilde strip and every tilde range, `satisfies_range` returns true
exactly when major and minor agree and the version's patch is at least the
range's patch; in particular `satisfies("1.2.5", "~1.2.3")` is true and
`satisfies("1.3.0", "~1.2.3")` is false. -/
theorem tilde_range_spec :
    (∀ (v r : String) (va vb vc a b c : Nat),
        parse_version (stripDiscovered v) = some (va, vb, vc) →
        headIs '^' r = false →
        headIs '~' r = true →
        parse_version (trimLeadChar '~' r) = some (a, b, c) →
        (satisfies_range v r = true ↔ (va = a ∧ vb = b ∧ c ≤ vc)))
    ∧ satisfies_range "1.2.5" "~1.2.3" = true
    ∧ satisfies_range "1.3.0" "~1.2.3" = false := by
  refine ⟨?_, by decide, by decide⟩
  intro v r va vb vc a b c hv hs1 hs2 hr
  simp only [satisfies_range, hv, hs1, hs2, hr, if_true, if_false, Bool.false_eq_true]
  simp [Bool.and_eq_true, decide_eq_true_eq, and_assoc]

/-- Witness for C2 at `v = "1.2.5"`, `r = "~1.2.3"`. -/
theorem tilde_range_spec_witness :
    satisfies_range "1.2.5" "~1.2.3" = true ↔ (1 = 1 ∧ 2 = 2 ∧ 3 ≤ 5) :=
  tilde_range_spec.1 "1.2.5" "~1.2.3" 1 2 5 1 2 3
    (by decide) (by decide) (by decide) (by decide)

/-! ## Claim C6: prefix stripping -/

/-- C6 counterexample: the source does not strip exactly one leading `^`/`~`.
On `"^^1.2.3"` the strip used by `satisfies_range` (and by the dependency
walk) removes both carets, so its result differs from the single-character
strip the claim describes, and the observable behavior differs too: the code
accepts `satisfies("^^1.2.3", "1.2.3")`, while a single strip would leave
`"^1.2.3"`, whose triplet does not parse, so nothing would be satisfied. -/
theorem strip_single_refuted :
    stripDiscovered "^^1.2.3" = "1.2.3"
    ∧ stripOneLeadingMark "^^1.2.3" = "^1.2.3"
    ∧ stripDiscovered "^^1.2.3" ≠ stripOneLeadingMark "^^1.2.3"
    ∧ satisfies_range "^^1.2.3" "1.2.3" = true
    ∧ parse_version (stripOneLeadingMark "^^1.2.3") = none := by
  refine ⟨by decide, by decide, by decide, by decide, by decide⟩

/-- C6 (amended): before comparison, all leading `^` characters are stripped
and then all leading `~` characters of what remains — both in
`satisfies_range` (discovered version) and in the dependency walk, which use
the same strip. A version of the form `'^'^m ++ '~'^n ++ rest` reduces to
`rest`; hence `"^^1.2.3"` and `"^~1.2.3"` become `"1.2.3"`, while in
`"~^1.2.3"` the caret after the tilde is retained. -/
theorem strip_all_marks :
    (∀ (m n : Nat) (rest : List Char),
        rest.head? ≠ some '^' → rest.head? ≠ some '~' →
        stripDiscovered (String.mk (List.replicate m '^' ++ List.replicate n '~' ++ rest))
          = String.mk rest)
    ∧ stripDiscovered "^^1.2.3" = "1.2.3"
    ∧ stripDiscovered "^~1.2.3" = "1.2.3"
    ∧ stripDiscovered "~^1.2.3" = "^1.2.3"
    ∧ satisfies_range "^~1.2.3" "1.2.3" = true := by
  refine ⟨?_, by decide, by decide, by decide, by decide⟩
  intro m n rest h1 h2
  unfold stripDiscovered trimLeadChar
  have step1 : List.dropWhile (fun d => d == '^')
      (List.replicate m '^' ++ (List.replicate n '~' ++ rest))
        = List.replicate n '~' ++ rest := by
    rw [dropWhile_replicate_append]
    apply dropWhile_of_head_ne
    cases n with
    | zero => simpa using h1
    | succ k => simp [List.replicate_succ]
  have step2 : List.dropWhile (fun d => d == '~') (List.replicate n '~' ++ rest) = rest := by
    rw [dropWhile_replicate_append]
    exact dropWhile_of_head_ne _ _ h2
  simp only [List.append_assoc]
  rw [step1, step2]

/-- Witness for C6 (amended) at `m = 2`, `n = 1`, `rest = "1.2.3"`. -/
theorem strip_all_marks_witness :
    stripDiscovered (String.mk
        (List.replicate 2 '^' ++ List.replicate 1 '~' ++ ['1', '.', '2', '.', '3']))
      = String.mk ['1', '.', '2', '.', '3'] :=
  strip_all_marks.1 2 1 ['1', '.', '2', '.', '3'] (by decide) (by decide)

/-! ## Claim C8: totality of the version comparator -/

/-- C8: `parse_version` and `satisfies_range` are total deterministic
functions (they are plain Lean functions over strings, so every input yields
a value and equal inputs yield equal results); invalid input is reported only
through `none`/`false`: an unparsable version triplet makes `satisfies_range`
false, and in the caret/tilde branches an unparsable range triplet makes it
false as well. -/
theorem version_fns_total :
    (∀ v r : String, satisfies_range v r = true ∨ satisfies_range v r = false)
    ∧ (∀ v r : String,
        parse_version (stripDiscovered v) = none → satisfies_range v r = false)
    ∧ (∀ v r : String, headIs '^' r = true →
        parse_version (trimLeadChar '^' r) = none → satisfies_range v r = false)
    ∧ (∀ v r : String, headIs '^' r = false → headIs '~' r = true →
        parse_version (trimLeadChar '~' r) = none → satisfies_range v r = false) := by
  refine ⟨fun v r => ?_, fun v r h => ?_, fun v r hs hr => ?_, fun v r hs1 hs2 hr => ?_⟩
  · cases h : satisfies_range v r
    · exact Or.inr rfl
    · exact Or.inl rfl
  · simp [satisfies_range, h]
  · cases hpv : parse_version (stripDiscovered v) with
    | none => simp [satisfies_range, hpv]
    | some t =>
      obtain ⟨vmaj, vmin, vpat⟩ := t
      simp [satisfies_range, hpv, hs, hr]
  · cases hpv : parse_version (stripDiscovered v) with
    | none => simp [satisfies_range, hpv]
    | some t =>
      obtain ⟨vmaj, vmin, vpat⟩ := t
      simp [satisfies_range, hpv, hs1, hs2, hr]

/-- Witness for C8: unparsable versions and ranges at concrete inputs. -/
theorem version_fns_total_witness :
    satisfies_range "garbage" "1.0.0" = false
    ∧ satisfies_range "1.0.0" "^garbage" = false
    ∧ satisfies_range "1.0.0" "~garbage" = false :=
  ⟨version_fns_total.2.1 "garbage" "1.0.0" (by decide),
   version_fns_total.2.2.1 "1.0.0" "^garbage" (by decide) (by decide),
   version_fns_total.2.2.2 "1.0.0" "~garbage" (by decide) (by decide) (by decide)⟩

/-! ## Claim C9: requirement-file tolerance -/

/-- C9 counterexample: in a run without `--verbose` (the default), the file
with one invalid and one valid line yields exactly one loaded requirement but
zero warnings — the claim's unconditional "skipped with a warning" does not
hold, because the warning is printed only under the verbose flag. -/
theorem warning_needs_verbose :
    (readPackages false ["not-a-valid-line", "left-pad@1.3.0"]).1
        = {("left-pad", "1.3.0")}
    ∧ (readPackages false ["not-a-valid-line", "left-pad@1.3.0"]).2 = 0 := by
  exact ⟨by decide, by decide⟩

/-- C9 (amended): requirement parsing is line-tolerant: a requirement is
loaded exactly for the trimmed lines with exactly one `'@'` (the loaded set
is exactly the parses of such lines), every other line is skipped — with a
warning only when verbose logging is enabled — and never aborts the run; the
two-line file yields one requirement and a warning exactly in verbose mode,
and every loading outcome exits with code zero. -/
theorem requirement_lines_tolerant :
    (∀ (verbose : Bool) (lines : List String) (p : String × String),
        p ∈ (readPackages verbose lines).1 ↔ ∃ l ∈ lines, parsePackageLine l = some p)
    ∧ (∀ l : String, (parsePackageLine l).isSome = true ↔ (trimAscii l).data.count '@' = 1)
    ∧ (∀ verbose, readPackages verbose ["not-a-valid-line", "left-pad@1.3.0"]
        = ({("left-pad", "1.3.0")}, if verbose then 1 else 0))
    ∧ (∀ (file : Option (List String)) (verbose : Bool),
        loadExitCode (loadOutcome file verbose) = 0) := by
  refine ⟨mem_readPackages, parsePackageLine_isSome_iff, fun verbose => ?_, ?_⟩
  · cases verbose <;> decide
  · intro file verbose
    cases loadOutcome file verbose <;> rfl

/-- Witness for C9 (amended) at the two-line file from the claim. -/
theorem requirement_lines_tolerant_witness :
    (("left-pad", "1.3.0") ∈ (readPackages true ["not-a-valid-line", "left-pad@1.3.0"]).1
        ↔ ∃ l ∈ ["not-a-valid-line", "left-pad@1.3.0"],
            parsePackageLine l = some ("left-pad", "1.3.0"))
    ∧ loadExitCode (loadOutcome (some ["not-a-valid-line", "left-pad@1.3.0"]) false) = 0 :=
  ⟨requirement_lines_tolerant.1 true ["not-a-valid-line", "left-pad@1.3.0"]
      ("left-pad", "1.3.0"),
   requirement_lines_tolerant.2.2.2 (some ["not-a-valid-line", "left-pad@1.3.0"]) false⟩

/-! ## Claim C3: resolution row flags -/

/-- C3: in the per-requirement resolution step, the produced row has
`match_package` true exactly when the declared range from the directory's
manifest is a non-empty string or the union of the five extractor-discovered
version sets (yarn, package-lock, pnpm, DEPENDENCIES.json, npm installed
tree) is non-empty; `match_version` is true exactly when some version in
that union satisfies the requirement under `satisfies_range`; and the row is
discarded (never pushed, hence absent from the report) exactly when neither
flag holds. -/
theorem resolution_row_flags (d name version : String) (pl : Preload) (no_npm : Bool)
    (npmOut : String → Option Json) (U : Finset String)
    (hU : U = (match pl.yarn with | some c => get_yarn_versions name c | none => ∅)
        ∪ (match pl.plock with | some j => get_package_lock_versions name j | none => ∅)
        ∪ (match pl.pnpm with | some c => get_pnpm_versions name c | none => ∅)
        ∪ (match pl.deps with | some c => get_dependencies_versions name c | none => ∅)
        ∪ npmSetFor no_npm npmOut name) :
    (∀ row os, requirementRow d pl no_npm npmOut name version = some (row, os) →
        (row.mp = true ↔ (get_pkg_range name pl.pkg_json ≠ "" ∨ U.Nonempty))
        ∧ (row.mv = true ↔ ∃ v ∈ U, satisfies_range v version = true))
    ∧ (requirementRow d pl no_npm npmOut name version = none ↔
        (¬(get_pkg_range name pl.pkg_json ≠ "" ∨ U.Nonempty)
          ∧ ¬∃ v ∈ U, satisfies_range v version = true)) := by
  have hall : all_versions_of name pl (npmSetFor no_npm npmOut name) = U := by
    rw [hU, all_versions_eq]
  have hmp : ((!(get_pkg_range name pl.pkg_json == "") || decide U.Nonempty) = true)
      ↔ (get_pkg_range name pl.pkg_json ≠ "" ∨ U.Nonempty) := by
    simp
  have hmv : ((decide (∃ v ∈ U, satisfies_range v version = true)) = true)
      ↔ (∃ v ∈ U, satisfies_range v version = true) := by
    simp
  constructor
  · intro row os h
    simp only [requirementRow, hall] at h
    split at h
    · exact absurd h (by simp)
    · have h2 := Option.some.inj h
      have hrow : row = ⟨name, version, d,
          !(get_pkg_range name pl.pkg_json == "") || decide U.Nonempty,
          decide (∃ v ∈ U, satisfies_range v version = true), "", ""⟩ :=
        (congrArg Prod.fst h2).symm
      rw [hrow]
      exact ⟨hmp, hmv⟩
  · simp only [requirementRow, hall]
    constructor
    · intro h
      split at h
      · rename_i hcond
        rw [Bool.and_eq_true, Bool.not_eq_true', Bool.not_eq_true'] at hcond
        refine ⟨fun hor => ?_, fun hex => ?_⟩
        · rw [← hmp] at hor
          rw [hcond.1] at hor
          exact Bool.false_ne_true hor
        · rw [← hmv] at hex
          rw [hcond.2] at hex
          exact Bool.false_ne_true hex
      · exact absurd h (by simp)
    · rintro ⟨h1, h2⟩
      have b1 : (!(get_pkg_range name pl.pkg_json == "") || decide U.Nonempty) = false := by
        rw [← Bool.not_eq_true, hmp]
        exact h1
      have b2 : (decide (∃ v ∈ U, satisfies_range v version = true)) = false := by
        rw [← Bool.not_eq_true, hmv]
        exact h2
      rw [if_pos (by rw [b1, b2]; rfl)]

/-- Witness for C3: a package-lock recording left-pad 1.3.2 against the
requirement `left-pad@~1.3.0`. -/
theorem resolution_row_flags_witness :
    ((⟨"left-pad", "~1.3.0", "dir", true, true, "", ""⟩ : Row).mp = true
      ↔ (get_pkg_range "left-pad" lockOnlyPreload.pkg_json ≠ ""
          ∨ ({"1.3.2"} : Finset String).Nonempty))
    ∧ ((⟨"left-pad", "~1.3.0", "dir", true, true, "", ""⟩ : Row).mv = true
      ↔ ∃ v ∈ ({"1.3.2"} : Finset String), satisfies_range v "~1.3.0" = true) :=
  (resolution_row_flags "dir" "left-pad" "~1.3.0" lockOnlyPreload true (fun _ => none)
      {"1.3.2"} (by decide)).1
    ⟨"left-pad", "~1.3.0", "dir", true, true, "", ""⟩
    (some "dir:left-pad@~1.3.0") (by decide)

/-! ## Claim C4: match_version implies match_package -/

/-- C4: every row a directory's task ever appends — the root-package row,
the direct- and dev-dependency rows, and the per-requirement resolution
rows — satisfies `match_version = true → match_package = true`. -/
theorem mv_imp_mp_rows
    (d : String) (packages : List (String × String)) (pl : Preload) (no_npm : Bool)
    (npmOut : String → Option Json) :
    ∀ r ∈ (processDir d packages pl no_npm npmOut).1, r.mv = true → r.mp = true := by
  intro r hr hmv
  unfold processDir at hr
  simp only [List.mem_append] at hr
  rcases hr with hm | hres
  · cases hpj : pl.pkg_json with
    | none =>
      rw [hpj] at hm
      simp [manifestOf] at hm
    | some data =>
      rw [hpj] at hm
      simp only [manifestOf, manifestPart] at hm
      split at hm
      · simp at hm
      · simp only [List.mem_cons, List.mem_append, List.mem_map] at hm
        rcases hm with rfl | ⟨⟨kv, ⟨a, ha, rfl⟩, rfl⟩ | ⟨kv, ⟨a, ha, rfl⟩, rfl⟩⟩
        · exact contains_imp_any packages _ _ hmv
        · simp only [depRow] at hmv ⊢
          rw [List.any_eq_true] at hmv ⊢
          obtain ⟨p, hp, hand⟩ := hmv
          simp only [Bool.and_eq_true] at hand
          exact ⟨p, hp, hand.1⟩
        · simp only [depRow] at hmv ⊢
          rw [List.any_eq_true] at hmv ⊢
          obtain ⟨p, hp, hand⟩ := hmv
          simp only [Bool.and_eq_true] at hand
          exact ⟨p, hp, hand.1⟩
  · simp only [resolutionPart, List.mem_filterMap] at hres
    obtain ⟨p, hp, hmap⟩ := hres
    cases hreq : requirementRow d pl no_npm npmOut p.1 p.2 with
    | none =>
      rw [hreq] at hmap
      simp at hmap
    | some pr =>
      rw [hreq] at hmap
      simp only [Option.map_some'] at hmap
      have hr1 : pr.1 = r := Option.some.inj hmap
      rw [← hr1]
      exact requirementRow_mv_imp_mp d p.1 p.2 pl no_npm npmOut pr.1 pr.2
        (by rw [hreq]) (hr1 ▸ hmv)

/-- Witness for C4 at a manifest whose root package is itself required. -/
theorem mv_imp_mp_rows_witness :
    (⟨"a", "1.0.0", "d1", true, true, "", ""⟩ : Row).mp = true :=
  mv_imp_mp_rows "d1" [("a", "1.0.0")] namedPreload true (fun _ => none)
    ⟨"a", "1.0.0", "d1", true, true, "", ""⟩ (by decide) (by decide)

/-! ## Claim C7: extractors on malformed content -/

/-- C7 counterexample: the DEPENDENCIES.json extractor applied to content
that is not valid JSON (an unterminated object) still returns a non-empty
version set, because its raw-text regex component runs before — and
independently of — JSON parsing. -/
theorem deps_extractor_bad_json :
    (parseJson "\x7b\"name\": \"foo@1.2.3\"").isNone = true
    ∧ get_dependencies_versions "foo" "\x7b\"name\": \"foo@1.2.3\"" = {"1.2.3"}
    ∧ get_dependencies_versions "foo" "\x7b\"name\": \"foo@1.2.3\"" ≠ ∅ := by
  refine ⟨by decide, by decide, by decide⟩

/-- C7 (amended): every extractor is a total function that never fails hard:
absent content contributes the empty set, and unparsable content yields the
empty set for every JSON-walking component — but the DEPENDENCIES.json
extractor also runs a raw-text regex, so on invalid JSON it returns exactly
the regex matches (which may be non-empty), and on valid JSON the regex
matches united with the JSON walk. -/
theorem extractors_on_malformed :
    (∀ name content, parseJson content = none →
        get_dependencies_versions name content = depsRegexVersions name content)
    ∧ (∀ name content j, parseJson content = some j →
        get_dependencies_versions name content
          = depsRegexVersions name content ∪ walk_deps name j)
    ∧ (∀ name : String, get_yarn_versions name "" = ∅)
    ∧ (∀ name : String, get_pnpm_versions name "" = ∅)
    ∧ (∀ name : String, get_dependencies_versions name "" = ∅)
    ∧ (∀ name : String, get_package_lock_versions name (Json.str "not an object") = ∅) := by
  refine ⟨?_, ?_, ?_, ?_, ?_, ?_⟩
  · intro name content h
    simp [get_dependencies_versions, h]
  · intro name content j h
    simp [get_dependencies_versions, h]
  · intro name
    simp [get_yarn_versions, splitRecords, splitRecordsGo, containsSub]
  · intro name
    simp [get_pnpm_versions, scanCapturesAfterLit]
  · intro name
    simp [get_dependencies_versions, depsRegexVersions, depsRegexScan, parseJson,
      parseJsonValue, skipJsonWs]
  · intro name
    simp [get_package_lock_versions, Json.getField]

/-- Witness for C7 (amended) at the unterminated-object content. -/
theorem extractors_on_malformed_witness :
    get_dependencies_versions "foo" "\x7b\"name\": \"foo@1.2.3\""
        = depsRegexVersions "foo" "\x7b\"name\": \"foo@1.2.3\""
    ∧ get_yarn_versions "foo" "" = ∅ :=
  ⟨extractors_on_malformed.1 "foo" "\x7b\"name\": \"foo@1.2.3\"" (by rfl),
   extractors_on_malformed.2.2.1 "foo"⟩

/-! ## Claim C10: manifests without name or version -/

/-- C10: when the directory's parsed manifest lacks a non-empty string
`name` or a non-empty string `version`, no manifest-derived rows are
produced — neither the root row nor any dependency rows, whatever the
dependency maps contain — while the directory's output is exactly the
per-requirement resolution rows, which are still evaluated and reported. -/
theorem missing_manifest_fields
    (d : String) (packages : List (String × String)) (pl : Preload) (no_npm : Bool)
    (npmOut : String → Option Json) (data : Json) (hpj : pl.pkg_json = some data)
    (h : manifestName data = "" ∨ manifestVersion data = "") :
    manifestPart d packages data = ([], [])
    ∧ processDir d packages pl no_npm npmOut = resolutionPart d packages pl no_npm npmOut := by
  have h1 : manifestPart d packages data = ([], []) := by
    simp only [manifestPart]
    rw [if_pos h]
  refine ⟨h1, ?_⟩
  simp only [processDir, manifestOf, hpj, h1]
  simp

/-- Witness for C10 at a manifest with a non-empty dependency map but no
name field. -/
theorem missing_manifest_fields_witness :
    manifestPart "d1" [("left-pad", "1.3.0")]
        (Json.obj [("dependencies", Json.obj [("left-pad", Json.str "^1.0.0")])]) = ([], [])
    ∧ processDir "d1" [("left-pad", "1.3.0")] namelessPreload true (fun _ => none)
        = resolutionPart "d1" [("left-pad", "1.3.0")] namelessPreload true (fun _ => none) :=
  missing_manifest_fields "d1" [("left-pad", "1.3.0")] namelessPreload true (fun _ => none)
    (Json.obj [("dependencies", Json.obj [("left-pad", Json.str "^1.0.0")])])
    rfl (Or.inl (by decide))

/-! ## Claim C5: deterministic aggregation -/

theorem keyL_eq_of_key (a b : Row) (h : rowKey a = rowKey b) : rowKeyL a = rowKeyL b := by
  unfold rowKey at h
  unfold rowKeyL
  rw [Prod.mk.injEq, Prod.mk.injEq] at h
  rw [h.1, h.2.1, h.2.2]

theorem key_eq_of_keyL (a b : Row) (h : rowKeyL a = rowKeyL b) : rowKey a = rowKey b := by
  unfold rowKeyL at h
  rw [toLex_inj, Prod.mk.injEq, toLex_inj, Prod.mk.injEq] at h
  unfold rowKey
  rw [h.1, h.2.1, h.2.2]

theorem rowLE_antisymm_key (a b : Row) (h1 : rowLE a b) (h2 : rowLE b a) :
    rowKey a = rowKey b :=
  key_eq_of_keyL a b (le_antisymm h1 h2)

theorem insertionSort_filter_key (l : List Row) (k : String × String × String) :
    (List.insertionSort rowLE l).filter (fun r => decide (rowKey r = k))
      = l.filter (fun r => decide (rowKey r = k)) := by
  have hpair : (l.filter (fun r => decide (rowKey r = k))).Pairwise rowLE := by
    apply List.pairwise_of_forall_mem_list
    intro a ha b hb
    have hak : rowKey a = k := by simpa using (List.mem_filter.mp ha).2
    have hbk : rowKey b = k := by simpa using (List.mem_filter.mp hb).2
    exact le_of_eq (keyL_eq_of_key a b (hak.trans hbk.symm))
  have hsub : List.Sublist (l.filter (fun r => decide (rowKey r = k))) l :=
    List.filter_sublist l
  have h1 : List.Sublist (l.filter (fun r => decide (rowKey r = k)))
      (List.insertionSort rowLE l) :=
    List.sublist_insertionSort hpair hsub
  have hperm : List.Perm (List.insertionSort rowLE l) l := List.perm_insertionSort rowLE l
  have h2 : List.Perm ((List.insertionSort rowLE l).filter (fun r => decide (rowKey r = k)))
      (l.filter (fun r => decide (rowKey r = k))) := hperm.filter _
  have h3 : List.Sublist (l.filter (fun r => decide (rowKey r = k)))
      ((List.insertionSort rowLE l).filter (fun r => decide (rowKey r = k))) := by
    have h4 := List.Sublist.filter (fun r => decide (rowKey r = k)) h1
    have h5 : (l.filter (fun r => decide (rowKey r = k))).filter
        (fun r => decide (rowKey r = k)) = l.filter (fun r => decide (rowKey r = k)) := by
      apply List.filter_eq_self.mpr
      intro a ha
      exact (List.mem_filter.mp ha).2
    rwa [h5] at h4
  exact (h3.eq_of_length h2.length_eq.symm).symm

theorem sorted_key_filters_unique :
    ∀ (zs ws : List Row), List.Sorted rowLE zs → List.Sorted rowLE ws →
      (∀ k, zs.filter (fun r => decide (rowKey r = k))
          = ws.filter (fun r => decide (rowKey r = k))) →
      zs = ws := by
  intro zs
  induction zs with
  | nil =>
    intro ws _ _ h
    cases ws with
    | nil => rfl
    | cons w ws' =>
      have h1 := h (rowKey w)
      rw [List.filter_nil, List.filter_cons_of_pos (by simp)] at h1
      exact absurd h1 (by simp)
  | cons z zs' ih =>
    intro ws hz hw h
    cases ws with
    | nil =>
      have h1 := h (rowKey z)
      rw [List.filter_nil, List.filter_cons_of_pos (by simp)] at h1
      exact absurd h1 (by simp)
    | cons w ws' =>
      have hkey : rowKey z = rowKey w := by
        by_contra hne
        have hne' : ¬rowKey w = rowKey z := fun he => hne he.symm
        have h1 := h (rowKey z)
        rw [List.filter_cons_of_pos (by simp),
          List.filter_cons_of_neg (by simp [hne'])] at h1
        have hzmem : z ∈ ws' :=
          List.mem_of_mem_filter (h1 ▸ List.mem_cons_self z _)
        have hwz : rowLE w z := (List.sorted_cons.mp hw).1 z hzmem
        have h2 := h (rowKey w)
        rw [List.filter_cons_of_neg (by simp [hne]),
          List.filter_cons_of_pos (by simp)] at h2
        have hwmem : w ∈ zs' :=
          List.mem_of_mem_filter (h2.symm ▸ List.mem_cons_self w _)
        have hzw : rowLE z w := (List.sorted_cons.mp hz).1 w hwmem
        exact hne (rowLE_antisymm_key z w hzw hwz)
      have h1 := h (rowKey z)
      rw [List.filter_cons_of_pos (by simp),
        List.filter_cons_of_pos (by simp [hkey])] at h1
      rw [List.cons.injEq] at h1
      obtain ⟨hzw, htail⟩ := h1
      rw [hzw]
      congr 1
      apply ih ws' (List.sorted_cons.mp hz).2 (List.sorted_cons.mp hw).2
      intro k
      by_cases hk : k = rowKey z
      · rw [hk]
        exact htail
      · have hk1 : ¬rowKey z = k := fun he => hk he.symm
        have hk2 : ¬rowKey w = k := fun he => hk (hkey.trans he).symm
        have h2 := h k
        rw [List.filter_cons_of_neg (by simp [hk1]),
          List.filter_cons_of_neg (by simp [hk2])] at h2
        exact h2

/-- Any two interleavings of the same per-directory row lists sort to the
same sequence: rows with equal keys come from one directory (the key contains
the location), so their relative order is that of the directory's own list in
every interleaving, and a stable sort is determined by its per-key
subsequences. -/
theorem rows_outcome_sort_eq (dirs : List String) (dirRows : String → List Row)
    (xs ys : List Row) (hx : RowsOutcome dirs dirRows xs) (hy : RowsOutcome dirs dirRows ys) :
    sortRows xs = sortRows ys := by
  apply sorted_key_filters_unique (sortRows xs) (sortRows ys)
    (List.sorted_insertionSort rowLE xs) (List.sorted_insertionSort rowLE ys)
  intro k
  unfold sortRows
  rw [insertionSort_filter_key, insertionSort_filter_key]
  have hfilter : ∀ zs : List Row, RowsOutcome dirs dirRows zs → k.2.2 ∈ dirs →
      zs.filter (fun r => decide (rowKey r = k))
        = (dirRows k.2.2).filter (fun r => decide (rowKey r = k)) := by
    intro zs hz hmem
    rw [← hz.2 k.2.2 hmem, List.filter_filter]
    apply List.filter_congr
    intro r _
    by_cases hk : rowKey r = k
    · have hloc : r.loc = k.2.2 := by
        rw [show r.loc = (rowKey r).2.2 from rfl, hk]
      simp [hk, hloc]
    · simp [hk]
  by_cases hmem : k.2.2 ∈ dirs
  · rw [hfilter xs hx hmem, hfilter ys hy hmem]
  · have hnil : ∀ zs : List Row, RowsOutcome dirs dirRows zs →
        zs.filter (fun r => decide (rowKey r = k)) = [] := by
      intro zs hz
      rw [List.filter_eq_nil_iff]
      intro r hr hk
      rw [decide_eq_true_eq] at hk
      have hloc : r.loc = k.2.2 := by
        rw [show r.loc = (rowKey r).2.2 from rfl, hk]
      exact hmem (hloc ▸ hz.1 r hr)
    rw [hnil xs hx, hnil ys hy]

/-- The found list is sorted by a total antisymmetric order on strings, so
any permutation of the same entries sorts to the same sequence. -/
theorem perm_sortFound_eq (fs gs : List String) (h : List.Perm fs gs) :
    sortFound fs = sortFound gs := by
  apply List.eq_of_perm_of_sorted
    (((List.perm_insertionSort _ fs).trans h).trans (List.perm_insertionSort _ gs).symm)
    (List.sorted_insertionSort _ fs) (List.sorted_insertionSort _ gs)

/-- Every row a directory's task appends carries that directory in its
`loc` field — the fact that makes `RowsOutcome` the faithful model of the
mutex-append interleavings. -/
theorem processDir_loc (d : String) (packages : List (String × String)) (pl : Preload)
    (no_npm : Bool) (npmOut : String → Option Json) :
    ∀ r ∈ (processDir d packages pl no_npm npmOut).1, r.loc = d := by
  intro r hr
  unfold processDir at hr
  simp only [List.mem_append] at hr
  rcases hr with hm | hres
  · cases hpj : pl.pkg_json with
    | none =>
      rw [hpj] at hm
      simp [manifestOf] at hm
    | some data =>
      rw [hpj] at hm
      simp only [manifestOf, manifestPart] at hm
      split at hm
      · simp at hm
      · simp only [List.mem_cons, List.mem_append, List.mem_map] at hm
        rcases hm with rfl | ⟨⟨kv, ⟨a, ha, rfl⟩, rfl⟩ | ⟨kv, ⟨a, ha, rfl⟩, rfl⟩⟩
        · rfl
        · rfl
        · rfl
  · simp only [resolutionPart, List.mem_filterMap] at hres
    obtain ⟨p, hp, hmap⟩ := hres
    cases hreq : requirementRow d pl no_npm npmOut p.1 p.2 with
    | none =>
      rw [hreq] at hmap
      simp at hmap
    | some pr =>
      rw [hreq] at hmap
      simp only [Option.map_some'] at hmap
      have hr1 : pr.1 = r := Option.some.inj hmap
      simp only [requirementRow] at hreq
      split at hreq
      · exact absurd hreq (by simp)
      · have h2 := Option.some.inj hreq
        have : pr.1.loc = d := by
          rw [← h2]
        rw [← hr1, this]

/-- C5: for fixed inputs the final output does not depend on how the
parallel per-directory tasks interleave their appends into the two shared
vectors: the report rows are sorted by the `(package, version, location)`
key, the found list is sorted lexicographically, and any two append
interleavings (and any two orders of found-entry arrival) yield identical
sorted sequences, equal-key rows included. -/
theorem aggregation_deterministic
    (packages : List (String × String)) (preOf : String → Preload) (no_npm : Bool)
    (npmOf : String → String → Option Json) (dirs : List String)
    (xs ys : List Row) (fs gs : List String)
    (hx : RowsOutcome dirs
      (fun d => (processDir d packages (preOf d) no_npm (npmOf d)).1) xs)
    (hy : RowsOutcome dirs
      (fun d => (processDir d packages (preOf d) no_npm (npmOf d)).1) ys)
    (hf : List.Perm fs
      ((dirs.map (fun d => (processDir d packages (preOf d) no_npm (npmOf d)).2)).flatten))
    (hg : List.Perm gs
      ((dirs.map (fun d => (processDir d packages (preOf d) no_npm (npmOf d)).2)).flatten)) :
    sortRows xs = sortRows ys
    ∧ sortFound fs = sortFound gs
    ∧ List.Sorted rowLE (sortRows xs)
    ∧ List.Sorted (fun a b : String => a ≤ b) (sortFound fs) :=
  ⟨rows_outcome_sort_eq dirs _ xs ys hx hy,
   perm_sortFound_eq fs gs (hf.trans hg.symm),
   List.sorted_insertionSort rowLE xs,
   List.sorted_insertionSort _ fs⟩

/-- Witness for C5: two directories whose rows arrive in opposite orders. -/
theorem aggregation_deterministic_witness :
    sortRows [⟨"a", "1.0.0", "d1", false, false, "", ""⟩,
        ⟨"left-pad", "~1.3.0", "d2", true, true, "", ""⟩]
      = sortRows [⟨"left-pad", "~1.3.0", "d2", true, true, "", ""⟩,
        ⟨"a", "1.0.0", "d1", false, false, "", ""⟩]
    ∧ sortFound ["d2:left-pad@~1.3.0"] = sortFound ["d2:left-pad@~1.3.0"]
    ∧ List.Sorted rowLE (sortRows [⟨"a", "1.0.0", "d1", false, false, "", ""⟩,
        ⟨"left-pad", "~1.3.0", "d2", true, true, "", ""⟩])
    ∧ List.Sorted (fun a b : String => a ≤ b) (sortFound ["d2:left-pad@~1.3.0"]) :=
  aggregation_deterministic [("left-pad", "~1.3.0")]
    (fun d => if d == "d1" then namedPreload else lockOnlyPreload) true (fun _ _ => none)
    ["d1", "d2"]
    [⟨"a", "1.0.0", "d1", false, false, "", ""⟩,
      ⟨"left-pad", "~1.3.0", "d2", true, true, "", ""⟩]
    [⟨"left-pad", "~1.3.0", "d2", true, true, "", ""⟩,
      ⟨"a", "1.0.0", "d1", false, false, "", ""⟩]
    ["d2:left-pad@~1.3.0"] ["d2:left-pad@~1.3.0"]
    (by constructor
        · decide
        · decide)
    (by constructor
        · decide
        · decide)
    (by decide)
    (by decide)

end PackageChecker
